import Mathlib

/-!
Verification of the reference-counted smart pointer in `gc_pointer.h` /
`gc_details.h` (class `Pointer<T, size>` with its static registry
`refContainer : std::list<PtrDetails<T>>`).

Shallow embedding conventions:
* raw addresses (`T*`) are natural numbers, `0` standing for `nullptr`;
* the C++ `unsigned` field `refCount` is a `Nat` computed modulo `2 ^ 32`
  wherever the source performs arithmetic on it;
* code whose behavior is undefined in C++ (dereferencing the `end()`
  iterator returned by a failed `findPtrInfo` lookup, reading an
  uninitialized member) is modeled by `Option` (`none` = undefined) or by
  an explicit `junk` parameter standing for the indeterminate value;
* the C++ `delete` / `delete []` calls are modeled by appending the freed
  address to a `freed` log, so that deallocations are observable;
* `std::list::remove(*p)` removes every element comparing equal, and
  `PtrDetails` compares equal by `memPtr` alone, so it is modeled as a
  filter dropping every entry with the same `memPtr`.
-/

namespace SmartPtr

/-- 2 ^ 32, the modulus of the C++ `unsigned` arithmetic on `refCount`. -/
def U32 : Nat := 2 ^ 32

/-- gc_details.h: `PtrDetails<T>` — one tracked allocation: reference count,
address, array flag, array size. -/
structure PtrDetails where
  refCount : Nat
  memPtr : Nat
  isArray : Bool
  arraySize : Nat
  deriving DecidableEq

/-- gc_details.h: the constructor `PtrDetails(T* mPtr, unsigned arrSize = 0)`.
It sets `memPtr = mPtr`, `arraySize = arrSize`, `isArray = (arrSize == 0)`
(as written in the source) and executes `refCount++` on the uninitialized
member `refCount`; `junk` stands for that indeterminate initial value. -/
def PtrDetails.ctor (junk : Nat) (mPtr : Nat) (arrSize : Nat) : PtrDetails :=
  ⟨(junk + 1) % U32, mPtr, arrSize == 0, arrSize⟩

/-- gc_pointer.h: the per-handle fields of `Pointer<T, size>`:
`addr`, `isArray`, `arraySize`. -/
structure Pointer where
  addr : Nat
  isArray : Bool
  arraySize : Nat
  deriving DecidableEq

/-- The static state of one instantiation `Pointer<T, size>`:
the registry `refContainer`, the log of addresses already passed to
`delete` / `delete []`, and the `first` flag guarding `atexit(shutdown)`. -/
structure GCState where
  refContainer : List PtrDetails
  freed : List Nat
  first : Bool
  deriving DecidableEq

/-- The static state before any `Pointer` has been created. -/
def initState : GCState := ⟨[], [], true⟩

/-- gc_pointer.h: `findPtrInfo(T* ptr)` — the first registry entry whose
`memPtr` equals `ptr`; `none` models the `end()` iterator. -/
def findPtrInfo (l : List PtrDetails) (ptr : Nat) : Option PtrDetails :=
  l.find? (fun e => e.memPtr == ptr)

/-- In-place mutation through the iterator returned by `findPtrInfo`:
apply `f` to the first entry whose `memPtr` equals `ptr` (no-op when the
lookup fails, which callers below treat as undefined behavior instead). -/
def updateFirst (l : List PtrDetails) (ptr : Nat) (f : PtrDetails → PtrDetails) :
    List PtrDetails :=
  match l with
  | [] => []
  | e :: rest =>
      if e.memPtr == ptr then f e :: rest else e :: updateFirst rest ptr f

/-- `p->refCount++` with `unsigned` wrap-around. -/
def incRC (e : PtrDetails) : PtrDetails :=
  ⟨(e.refCount + 1) % U32, e.memPtr, e.isArray, e.arraySize⟩

/-- The unguarded `p->refCount--` of the two assignment operators,
with `unsigned` wrap-around. -/
def decRCWrap (e : PtrDetails) : PtrDetails :=
  ⟨(e.refCount + (U32 - 1)) % U32, e.memPtr, e.isArray, e.arraySize⟩

/-- The guarded `if (p->refCount) p->refCount--;` of the destructor. -/
def decRCGuard (e : PtrDetails) : PtrDetails :=
  if e.refCount == 0 then e else ⟨e.refCount - 1, e.memPtr, e.isArray, e.arraySize⟩

/-- `p->refCount = 0` as performed by `shutdown()`. -/
def zeroRC (e : PtrDetails) : PtrDetails :=
  ⟨0, e.memPtr, e.isArray, e.arraySize⟩

/-- `refContainer.remove(*p)`: `std::list::remove` erases every element
comparing equal to `*p`, and `operator==` on `PtrDetails` compares only
`memPtr`, so every entry with the same address is dropped. -/
def removeEq (l : List PtrDetails) (e : PtrDetails) : List PtrDetails :=
  l.filter (fun x => !(x.memPtr == e.memPtr))

/-- gc_pointer.h: the do/while loop of `collect()`.  Each pass scans for the
first entry with `refCount == 0`; on finding one it sets `memFreed`, removes
every entry equal to it (equality by address), performs the `delete` when
`memPtr` is non-null (logged in `freed`), and rescans from the start; the
loop stops when a full pass finds no zero-count entry.  Every productive
pass removes at least one entry, so `l.length` passes always reach that
fixpoint; `fuel` only bounds the recursion depth and is never exhausted
when started at `l.length` (theorem `collectLoop_find_none` below). -/
def collectLoop (fuel : Nat) (l : List PtrDetails) (freed : List Nat)
    (memFreed : Bool) : Bool × List PtrDetails × List Nat :=
  match fuel with
  | 0 => (memFreed, l, freed)
  | fuel + 1 =>
      match l.find? (fun e => e.refCount == 0) with
      | none => (memFreed, l, freed)
      | some e =>
          collectLoop fuel (removeEq l e)
            (if e.memPtr == 0 then freed else freed ++ [e.memPtr]) true

/-- gc_pointer.h: `static bool collect()`. -/
def collect (s : GCState) : Bool × GCState :=
  ((collectLoop s.refContainer.length s.refContainer s.freed false).1,
   ⟨(collectLoop s.refContainer.length s.refContainer s.freed false).2.1,
    (collectLoop s.refContainer.length s.refContainer s.freed false).2.2,
    s.first⟩)

/-- gc_pointer.h: `Pointer(T* t)`.  Sets `addr`, `arraySize = size`,
`isArray = (arraySize > 0)`, builds a `PtrDetails`, overwrites its
`refCount` with 1 and its `isArray` / `arraySize` with the handle's values,
and unconditionally appends it to `refContainer` (no lookup of `t`).
The `atexit(shutdown)` registration is reflected only in the `first` flag. -/
def ctorRaw (size : Nat) (t : Nat) (s : GCState) : Pointer × GCState :=
  (⟨t, decide (size > 0), size⟩,
   ⟨s.refContainer ++ [⟨1, t, decide (size > 0), size⟩], s.freed, false⟩)

/-- gc_pointer.h: `Pointer(const Pointer &obj)`.  Copies `addr`,
`arraySize`, `isArray`, then increments the `refCount` of the first entry
found for `obj.addr`; a failed lookup dereferences `end()` (undefined,
modeled as `none`). -/
def ctorCopy (obj : Pointer) (s : GCState) : Option (Pointer × GCState) :=
  match findPtrInfo s.refContainer obj.addr with
  | none => none
  | some _ =>
      some (⟨obj.addr, obj.isArray, obj.arraySize⟩,
            ⟨updateFirst s.refContainer obj.addr incRC, s.freed, s.first⟩)

/-- The decrement phase of `~Pointer()`: `p = findPtrInfo(addr);
if (p->refCount) p->refCount--;`.  A failed lookup reads `end()->refCount`
(undefined, modeled as `none`). -/
def dtorDecRef (h : Pointer) (s : GCState) : Option GCState :=
  match findPtrInfo s.refContainer h.addr with
  | none => none
  | some _ =>
      some ⟨updateFirst s.refContainer h.addr decRCGuard, s.freed, s.first⟩

/-- gc_pointer.h: `~Pointer()` — decrement, then `collect()`. -/
def dtor (h : Pointer) (s : GCState) : Option GCState :=
  match dtorDecRef h s with
  | none => none
  | some s1 => some (collect s1).2

/-- gc_pointer.h: `T* operator=(T* t)`.  Unguarded decrement of the entry
for the current `addr` (a failed lookup is undefined), then lookup of `t`:
increment on success, otherwise `push_back(PtrDetails<T>(t, size))` — note
the raw `PtrDetails` constructor with its uninitialized `refCount` (`junk`)
and inverted `isArray`.  Sets `addr = t` and returns `t`. -/
def assignRaw (size : Nat) (junk : Nat) (h : Pointer) (t : Nat) (s : GCState) :
    Option (Pointer × Nat × GCState) :=
  match findPtrInfo s.refContainer h.addr with
  | none => none
  | some _ =>
      let l1 := updateFirst s.refContainer h.addr decRCWrap
      let l2 :=
        match findPtrInfo l1 t with
        | some _ => updateFirst l1 t incRC
        | none => l1 ++ [PtrDetails.ctor junk t size]
      some (⟨t, h.isArray, h.arraySize⟩, t, ⟨l2, s.freed, s.first⟩)

/-- gc_pointer.h: `Pointer &operator=(Pointer &rv)`.  Unguarded decrement
of the entry for the current `addr`, unguarded increment of the entry for
`rv.addr` (each failed lookup is undefined), `addr = rv.addr`, and
`return rv;` — the function returns the right-hand handle.  The result
triple is (updated left-hand handle, returned reference, new state). -/
def assignPtr (h : Pointer) (rv : Pointer) (s : GCState) :
    Option (Pointer × Pointer × GCState) :=
  match findPtrInfo s.refContainer h.addr with
  | none => none
  | some _ =>
      let l1 := updateFirst s.refContainer h.addr decRCWrap
      match findPtrInfo l1 rv.addr with
      | none => none
      | some _ =>
          some (⟨rv.addr, h.isArray, h.arraySize⟩, rv,
                ⟨updateFirst l1 rv.addr incRC, s.freed, s.first⟩)

/-- gc_pointer.h: `static int refContainerSize()`. -/
def refContainerSize (s : GCState) : Nat := s.refContainer.length

/-- gc_pointer.h: `static void shutdown()` — return immediately when the
registry is empty, otherwise set every `refCount` to zero and `collect()`. -/
def shutdown (s : GCState) : GCState :=
  if refContainerSize s == 0 then s
  else (collect ⟨s.refContainer.map zeroRC, s.freed, s.first⟩).2

/-- Modelled from the spec: `gc_iterator.h` is not under `src/`; the spec's
RangeIterator holds three addresses `current`, `begin`, `end` delimiting the
half-open range `[begin, end)`, matching the `Iter<T>(T*, T*, T*)`
constructor calls in `Pointer::begin`/`Pointer::end`. -/
structure Iter where
  current : Nat
  beginAddr : Nat
  endAddr : Nat
  deriving DecidableEq

/-- gc_pointer.h: `Iter<T> begin()` — `_size` is `arraySize` when `isArray`
holds and 0 otherwise; returns `Iter(addr, addr, addr + _size)`. -/
def Pointer.beginIter (h : Pointer) : Iter :=
  ⟨h.addr, h.addr, h.addr + (if h.isArray then h.arraySize else 0)⟩

/-- gc_pointer.h: `Iter<T> end()` — returns
`Iter(addr + _size, addr, addr + _size)`. -/
def Pointer.endIter (h : Pointer) : Iter :=
  ⟨h.addr + (if h.isArray then h.arraySize else 0), h.addr,
   h.addr + (if h.isArray then h.arraySize else 0)⟩

/-- gc_pointer.h: `Pointer()` — its body is the statement `Pointer(nullptr);`,
which constructs a temporary from `nullptr` and destroys it at the end of
the statement; the object under construction itself has no field
initialized, so its `addr` / `isArray` / `arraySize` hold indeterminate
values, modeled by the `junk` parameters. -/
def ctorDefault (size : Nat) (junkAddr : Nat) (junkIsArray : Bool)
    (junkArraySize : Nat) (s : GCState) : Option (Pointer × GCState) :=
  let tmp := ctorRaw size 0 s
  match dtor tmp.1 tmp.2 with
  | none => none
  | some s2 => some (⟨junkAddr, junkIsArray, junkArraySize⟩, s2)

/-! ### Trace semantics

A world is the registry state together with the list of handles created so
far; destroying a handle replaces its slot by `none`.  The operations of
claims C1/C2/C5 — construction from a raw address, copy construction,
destruction, and an explicit `collect()` call — act on worlds. -/

/-- Does this (live) handle slot point at address `a`? -/
def hitsAddr (a : Nat) (oh : Option Pointer) : Bool :=
  match oh with
  | some p => p.addr == a
  | none => false

/-- A world: handle slots (`none` = already destroyed) plus the static
state of the instantiation. -/
structure World where
  handles : List (Option Pointer)
  gc : GCState
  deriving DecidableEq

/-- The world before any handle exists. -/
def initWorld : World := ⟨[], initState⟩

/-- Number of live handles whose `addr` field equals `a`. -/
def liveCount (w : World) (a : Nat) : Nat :=
  w.handles.countP (hitsAddr a)

/-- One handle operation: construct from a raw address, copy-construct from
the handle in slot `src`, destroy the handle in slot `h`, or call
`collect()` explicitly. -/
inductive Op where
  | ctorRaw (t : Nat)
  | ctorCopy (src : Nat)
  | destroy (h : Nat)
  | collectReq
  deriving DecidableEq

/-- Execute one operation; `none` models an invalid slot or undefined
behavior inside the invoked member function. -/
def step (size : Nat) (w : World) : Op → Option World
  | Op.ctorRaw t =>
      some ⟨w.handles ++ [some (ctorRaw size t w.gc).1], (ctorRaw size t w.gc).2⟩
  | Op.ctorCopy i =>
      match w.handles[i]? with
      | some (some p) =>
          match ctorCopy p w.gc with
          | some r => some ⟨w.handles ++ [some r.1], r.2⟩
          | none => none
      | _ => none
  | Op.destroy i =>
      match w.handles[i]? with
      | some (some p) =>
          match dtor p w.gc with
          | some s2 => some ⟨w.handles.set i none, s2⟩
          | none => none
      | _ => none
  | Op.collectReq => some ⟨w.handles, (collect w.gc).2⟩

/-- Execute a list of operations in order. -/
def runOps (size : Nat) (w : World) : List Op → Option World
  | [] => some w
  | op :: ops =>
      match step size w op with
      | none => none
      | some w1 => runOps size w1 ops

/-- Reachability under per-step side condition `P`: every executed
operation satisfies `P` at the world it is executed in. -/
inductive Reaches (P : World → Op → Prop) (size : Nat) : World → World → Prop where
  | done (w : World) : Reaches P size w w
  | more {w w1 w2 : World} (op : Op) (hP : P w op)
      (hs : step size w op = some w1) (ht : Reaches P size w1 w2) :
      Reaches P size w w2

/-- Address `a` has an entry in the registry. -/
def registered (s : GCState) (a : Nat) : Prop :=
  a ∈ s.refContainer.map PtrDetails.memPtr

/-- Side condition for the amended C1/C2: a raw-address construction only
uses an address with no current registry entry, and fewer than `2 ^ 32 - 1`
handle slots exist (so `unsigned` reference counts cannot wrap). -/
def Ok1 (w : World) (op : Op) : Prop :=
  (match op with
   | Op.ctorRaw t => ¬ registered w.gc t
   | _ => True) ∧ w.handles.length + 1 < U32

/-- Side condition for the amended C5: additionally, a raw-address
construction never reuses an address that was already deallocated. -/
def Ok5 (w : World) (op : Op) : Prop :=
  (match op with
   | Op.ctorRaw t => ¬ registered w.gc t ∧ t ∉ w.gc.freed
   | _ => True) ∧ w.handles.length + 1 < U32

/-- The registry bookkeeping invariant: every entry counts exactly the live
handles at its address, addresses are pairwise distinct across entries, and
every live handle's address is registered. -/
def InvCounts (w : World) : Prop :=
  (∀ e ∈ w.gc.refContainer, e.refCount = liveCount w e.memPtr) ∧
  (w.gc.refContainer.map PtrDetails.memPtr).Nodup ∧
  (∀ oh ∈ w.handles, ∀ q : Pointer, oh = some q → registered w.gc q.addr)

/-- The deallocation invariant: no address is freed twice, and a freed
address has no live handle and no registry entry. -/
def FreedOk (w : World) : Prop :=
  w.gc.freed.Nodup ∧
  ∀ a ∈ w.gc.freed, liveCount w a = 0 ∧ ¬ registered w.gc a

/-- Conclusion of claim C1 (amended): every registry entry's `refCount`
equals the number of live handles at its address, and unregistered
addresses have no live handles. -/
def C1Prop (w : World) : Prop :=
  (∀ e ∈ w.gc.refContainer, e.refCount = liveCount w e.memPtr) ∧
  (∀ a : Nat, ¬ registered w.gc a → liveCount w a = 0)

/-- Frame property of the two assignment operators: the reassignment frees
nothing and keeps every previously registered address registered (in
particular the entry of the old target, even at reference count zero). -/
def RegPreserved (s s1 : GCState) : Prop :=
  s1.freed = s.freed ∧ ∀ a : Nat, registered s a → registered s1 a

instance (s : GCState) (a : Nat) : Decidable (registered s a) :=
  inferInstanceAs (Decidable (a ∈ s.refContainer.map PtrDetails.memPtr))

instance (w : World) (op : Op) : Decidable (Ok1 w op) := by
  cases op with
  | ctorRaw t =>
      exact inferInstanceAs
        (Decidable (¬ registered w.gc t ∧ w.handles.length + 1 < U32))
  | ctorCopy i =>
      exact inferInstanceAs (Decidable (True ∧ w.handles.length + 1 < U32))
  | destroy i =>
      exact inferInstanceAs (Decidable (True ∧ w.handles.length + 1 < U32))
  | collectReq =>
      exact inferInstanceAs (Decidable (True ∧ w.handles.length + 1 < U32))

instance (w : World) (op : Op) : Decidable (Ok5 w op) := by
  cases op with
  | ctorRaw t =>
      exact inferInstanceAs
        (Decidable ((¬ registered w.gc t ∧ t ∉ w.gc.freed) ∧
          w.handles.length + 1 < U32))
  | ctorCopy i =>
      exact inferInstanceAs (Decidable (True ∧ w.handles.length + 1 < U32))
  | destroy i =>
      exact inferInstanceAs (Decidable (True ∧ w.handles.length + 1 < U32))
  | collectReq =>
      exact inferInstanceAs (Decidable (True ∧ w.handles.length + 1 < U32))

/-! ### Concrete runs used by witnesses and counterexamples -/

/-- World after constructing a handle from address 5 and copying it. -/
def c1W : World := (runOps 0 initWorld [Op.ctorRaw 5, Op.ctorCopy 0]).getD initWorld

/-- World after constructing two handles from the same raw address 5. -/
def c1cexW : World := (runOps 0 initWorld [Op.ctorRaw 5, Op.ctorRaw 5]).getD initWorld

/-- World after raw construction at 3, a copy, and raw construction at 8. -/
def c2W : World :=
  (runOps 0 initWorld [Op.ctorRaw 3, Op.ctorCopy 0, Op.ctorRaw 8]).getD initWorld

/-- World after constructing two handles from the same raw address 9. -/
def c2cexW : World := (runOps 0 initWorld [Op.ctorRaw 9, Op.ctorRaw 9]).getD initWorld

/-- Registry with scalar entries for addresses 3 and 7. -/
def c2s0 : GCState := ⟨[⟨1, 3, false, 0⟩, ⟨1, 7, false, 0⟩], [], false⟩

/-- State after assigning the already-registered address 7 to a handle at 3. -/
def c2s1 : GCState :=
  match assignRaw 0 0 (⟨3, false, 0⟩ : Pointer) 7 c2s0 with
  | some r => r.2.2
  | none => c2s0

/-- Registry with an array entry for the handle at address 2. -/
def c4s0 : GCState := ⟨[⟨1, 2, true, 5⟩], [], false⟩

/-- State after a `Pointer<T,5>` handle at address 2 is assigned the fresh
raw address 9 (uninitialized `refCount` of the inserted entry taken as 3). -/
def c4s1 : GCState :=
  match assignRaw 5 3 (⟨2, true, 5⟩ : Pointer) 9 c4s0 with
  | some r => r.2.2
  | none => c4s0

/-- World after construct at 4, copy, destroy the copy, destroy the
original: address 4 is freed exactly once. -/
def c5W : World :=
  (runOps 0 initWorld [Op.ctorRaw 4, Op.ctorCopy 0, Op.destroy 1, Op.destroy 0]).getD
    initWorld

/-- World after the freed raw address 7 is reused by a second raw
construction and destroyed again. -/
def c5cexW : World :=
  (runOps 0 initWorld [Op.ctorRaw 7, Op.destroy 0, Op.ctorRaw 7, Op.destroy 1]).getD
    initWorld

/-- Registry with a single entry for address 5 at reference count 2. -/
def c5s0 : GCState := ⟨[⟨2, 5, false, 0⟩], [], false⟩

/-- State after the destructor's decrement phase runs on that entry. -/
def c5s1 : GCState :=
  match dtorDecRef (⟨5, false, 0⟩ : Pointer) c5s0 with
  | some s1 => s1
  | none => c5s0

/-- Result of copy-constructing from the handle at address 5. -/
def c5copyR : Pointer × GCState :=
  match ctorCopy (⟨5, false, 0⟩ : Pointer) c5s0 with
  | some r => r
  | none => ((⟨5, false, 0⟩ : Pointer), c5s0)

/-- Registry with entries for addresses 3 (count 2) and 7 (count 1). -/
def c7s0 : GCState := ⟨[⟨2, 3, false, 0⟩, ⟨1, 7, false, 0⟩], [], false⟩

/-- Result of assigning raw address 7 to a handle at address 3. -/
def c7r1 : Pointer × Nat × GCState :=
  match assignRaw 0 0 (⟨3, false, 0⟩ : Pointer) 7 c7s0 with
  | some r => r
  | none => ((⟨3, false, 0⟩ : Pointer), 7, c7s0)

/-- Result of assigning a handle at address 7 to a handle at address 3. -/
def c7r2 : Pointer × Pointer × GCState :=
  match assignPtr (⟨3, false, 0⟩ : Pointer) (⟨7, false, 0⟩ : Pointer) c7s0 with
  | some r => r
  | none => ((⟨3, false, 0⟩ : Pointer), (⟨7, false, 0⟩ : Pointer), c7s0)

/-- Registry whose entries all have positive reference counts. -/
def c8s0 : GCState := ⟨[⟨1, 5, false, 0⟩, ⟨2, 6, true, 4⟩], [], true⟩

/-- Registry with entries for addresses 4 (scalar) and 9 (array). -/
def c10s0 : GCState := ⟨[⟨1, 4, false, 0⟩, ⟨1, 9, true, 3⟩], [], false⟩

/-- Result of handle-to-handle assignment from a handle at 9 to one at 4. -/
def c10r : Pointer × Pointer × GCState :=
  match assignPtr (⟨4, false, 0⟩ : Pointer) (⟨9, true, 3⟩ : Pointer) c10s0 with
  | some r => r
  | none => ((⟨4, false, 0⟩ : Pointer), (⟨9, true, 3⟩ : Pointer), c10s0)

/-! ### Generic list lemmas -/

theorem find?_split {α : Type} {p : α → Bool} :
    ∀ {l : List α} {e : α}, l.find? p = some e →
      ∃ l1 l2, l = l1 ++ e :: l2 ∧ ∀ x ∈ l1, ¬ p x = true := by
  intro l
  induction l with
  | nil => intro e h; simp at h
  | cons x rest ih =>
      intro e h
      by_cases hx : p x = true
      · rw [List.find?_cons_of_pos rest hx] at h
        injection h with h
        subst h
        exact ⟨[], rest, rfl, by simp⟩
      · rw [List.find?_cons_of_neg rest hx] at h
        obtain ⟨l1, l2, rfl, hl1⟩ := ih h
        refine ⟨x :: l1, l2, rfl, ?_⟩
        intro y hy
        rcases List.mem_cons.mp hy with rfl | hy2
        · exact hx
        · exact hl1 y hy2

theorem length_filter_lt_of_mem {α : Type} {p : α → Bool} {e : α} :
    ∀ {l : List α}, e ∈ l → p e = false → (l.filter p).length < l.length := by
  intro l
  induction l with
  | nil => intro h _; cases h
  | cons x rest ih =>
      intro he hpe
      rcases List.mem_cons.mp he with rfl | hmem
      · rw [List.filter_cons, if_neg (by simp [hpe])]
        exact Nat.lt_succ_of_le (List.length_filter_le p rest)
      · rw [List.filter_cons]
        by_cases hx : p x = true
        · rw [if_pos hx]
          simpa using Nat.succ_lt_succ (ih hmem hpe)
        · rw [if_neg hx]
          simpa using Nat.lt_succ_of_lt (ih hmem hpe)

theorem countP_snoc {α : Type} (p : α → Bool) (l : List α) (x : α) :
    List.countP p (l ++ [x]) = List.countP p l + (if p x = true then 1 else 0) := by
  simp [List.countP_append, List.countP_cons]

theorem countP_set_none (p : Option Pointer → Bool) :
    ∀ (l : List (Option Pointer)) (i : Nat) (x : Option Pointer),
      l[i]? = some x →
      List.countP p (l.set i none) + (if p x = true then 1 else 0)
        = List.countP p l + (if p none = true then 1 else 0) := by
  intro l
  induction l with
  | nil => intro i x h; simp at h
  | cons a rest ih =>
      intro i x h
      cases i with
      | zero =>
          simp at h
          subst h
          simp only [List.set, List.countP_cons]
          split_ifs <;> omega
      | succ i =>
          simp at h
          have h2 := ih i x h
          simp only [List.set, List.countP_cons]
          omega

/-! ### Lemmas about `updateFirst` and `findPtrInfo` -/

theorem incRC_memPtr (e : PtrDetails) : (incRC e).memPtr = e.memPtr := by
  cases e
  rfl

theorem incRC_refCount (e : PtrDetails) :
    (incRC e).refCount = (e.refCount + 1) % U32 := by
  cases e
  rfl

theorem decRCWrap_memPtr (e : PtrDetails) : (decRCWrap e).memPtr = e.memPtr := by
  cases e
  rfl

theorem decRCWrap_refCount (e : PtrDetails) :
    (decRCWrap e).refCount = (e.refCount + (U32 - 1)) % U32 := by
  cases e
  rfl

theorem decRCGuard_memPtr (e : PtrDetails) : (decRCGuard e).memPtr = e.memPtr := by
  unfold decRCGuard
  split <;> rfl

theorem decRCGuard_refCount (e : PtrDetails) :
    (decRCGuard e).refCount = (if e.refCount = 0 then e.refCount else e.refCount - 1) := by
  unfold decRCGuard
  rcases e with ⟨rc, m, ia, as⟩
  by_cases h : rc = 0 <;> simp [h]

theorem map_memPtr_updateFirst (l : List PtrDetails) (a : Nat)
    (f : PtrDetails → PtrDetails) (hf : ∀ x, (f x).memPtr = x.memPtr) :
    (updateFirst l a f).map PtrDetails.memPtr = l.map PtrDetails.memPtr := by
  induction l with
  | nil => rfl
  | cons e rest ih =>
      by_cases he : e.memPtr = a
      · simp [updateFirst, he, hf]
      · simp [updateFirst, he, ih]

theorem mem_updateFirst_iff {l : List PtrDetails} {a : Nat}
    {f : PtrDetails → PtrDetails}
    (hnd : (l.map PtrDetails.memPtr).Nodup) (e1 : PtrDetails) :
    e1 ∈ updateFirst l a f ↔
      (e1 ∈ l ∧ e1.memPtr ≠ a) ∨ (∃ e ∈ l, e.memPtr = a ∧ e1 = f e) := by
  induction l with
  | nil => simp [updateFirst]
  | cons x rest ih =>
      rw [List.map_cons, List.nodup_cons] at hnd
      by_cases hxa : x.memPtr = a
      · have hrest : ∀ y ∈ rest, y.memPtr ≠ a := by
          intro y hy hya
          apply hnd.1
          have hm : y.memPtr ∈ rest.map PtrDetails.memPtr :=
            List.mem_map_of_mem PtrDetails.memPtr hy
          rwa [hya, ← hxa] at hm
        rw [show updateFirst (x :: rest) a f = f x :: rest by
          simp [updateFirst, hxa]]
        constructor
        · intro hmem
          rcases List.mem_cons.mp hmem with rfl | hmem2
          · exact Or.inr ⟨x, List.mem_cons_self x rest, hxa, rfl⟩
          · exact Or.inl ⟨List.mem_cons_of_mem x hmem2, hrest e1 hmem2⟩
        · rintro (⟨hmem, hne⟩ | ⟨e, hmem, hea, rfl⟩)
          · rcases List.mem_cons.mp hmem with rfl | hmem2
            · exact absurd hxa hne
            · exact List.mem_cons_of_mem (f x) hmem2
          · rcases List.mem_cons.mp hmem with rfl | hmem2
            · exact List.mem_cons_self (f e) rest
            · exact absurd hea (hrest e hmem2)
      · rw [show updateFirst (x :: rest) a f = x :: updateFirst rest a f by
          simp [updateFirst, hxa]]
        constructor
        · intro hmem
          rcases List.mem_cons.mp hmem with rfl | hmem2
          · exact Or.inl ⟨List.mem_cons_self e1 rest, hxa⟩
          · rcases (ih hnd.2).mp hmem2 with ⟨hm, hne⟩ | ⟨e, hm, hea, rfl⟩
            · exact Or.inl ⟨List.mem_cons_of_mem x hm, hne⟩
            · exact Or.inr ⟨e, List.mem_cons_of_mem x hm, hea, rfl⟩
        · rintro (⟨hmem, hne⟩ | ⟨e, hmem, hea, rfl⟩)
          · rcases List.mem_cons.mp hmem with rfl | hmem2
            · exact List.mem_cons_self e1 (updateFirst rest a f)
            · exact List.mem_cons_of_mem x ((ih hnd.2).mpr (Or.inl ⟨hmem2, hne⟩))
          · rcases List.mem_cons.mp hmem with rfl | hmem2
            · exact absurd hea hxa
            · exact List.mem_cons_of_mem x
                ((ih hnd.2).mpr (Or.inr ⟨e, hmem2, hea, rfl⟩))

theorem findPtrInfo_some {l : List PtrDetails} {a : Nat} {e : PtrDetails}
    (h : findPtrInfo l a = some e) : e ∈ l ∧ e.memPtr = a :=
  ⟨List.mem_of_find?_eq_some h, by simpa using List.find?_some h⟩

theorem findPtrInfo_of_mem_map {l : List PtrDetails} {a : Nat}
    (h : a ∈ l.map PtrDetails.memPtr) : ∃ e, findPtrInfo l a = some e := by
  obtain ⟨e, he, hea⟩ := List.mem_map.mp h
  have hs : (List.find? (fun x => x.memPtr == a) l).isSome :=
    List.find?_isSome.mpr ⟨e, he, by simp [hea]⟩
  exact Option.isSome_iff_exists.mp hs

theorem findPtrInfo_of_registered {s : GCState} {a : Nat} (h : registered s a) :
    ∃ e, findPtrInfo s.refContainer a = some e :=
  findPtrInfo_of_mem_map h

theorem registered_of_mem {s : GCState} {e : PtrDetails}
    (he : e ∈ s.refContainer) : registered s e.memPtr :=
  List.mem_map_of_mem PtrDetails.memPtr he

/-! ### Lemmas about `collect` -/

theorem collectLoop_of_find_none {l : List PtrDetails} {f : List Nat} {b : Bool}
    (h : l.find? (fun e => e.refCount == 0) = none) (fuel : Nat) :
    collectLoop fuel l f b = (b, l, f) := by
  cases fuel <;> simp [collectLoop, h]

theorem removeEq_length_lt {l : List PtrDetails} {e : PtrDetails} (he : e ∈ l) :
    (removeEq l e).length < l.length := by
  unfold removeEq
  exact length_filter_lt_of_mem he (by simp)

/-- The fuel `l.length` always suffices: the loop really stops only because
a full pass finds no zero-count entry, exactly as the source's do/while. -/
theorem collectLoop_find_none :
    ∀ (fuel : Nat) (l : List PtrDetails) (f : List Nat) (b : Bool),
      l.length ≤ fuel →
      ((collectLoop fuel l f b).2.1).find? (fun e => e.refCount == 0) = none := by
  intro fuel
  induction fuel with
  | zero =>
      intro l f b hl
      have hnil : l = [] := List.length_eq_zero.mp (Nat.le_zero.mp hl)
      subst hnil
      simp [collectLoop]
  | succ fuel ih =>
      intro l f b hl
      cases hfind : l.find? (fun e => e.refCount == 0) with
      | none => simp [collectLoop, hfind]
      | some e =>
          have he := List.mem_of_find?_eq_some hfind
          have hlt : (removeEq l e).length < l.length := removeEq_length_lt he
          have hstep : collectLoop (fuel + 1) l f b
              = collectLoop fuel (removeEq l e)
                  (if e.memPtr == 0 then f else f ++ [e.memPtr]) true := by
            simp [collectLoop, hfind]
          rw [hstep]
          exact ih _ _ _ (by omega)

/-- Closed form of the collection loop when registry addresses are pairwise
distinct: it drops exactly the zero-count entries and logs the non-null
ones among them, in order. -/
theorem collectLoop_eq_of_nodup :
    ∀ (fuel : Nat) (l : List PtrDetails) (f : List Nat) (b : Bool),
      l.length ≤ fuel → (l.map PtrDetails.memPtr).Nodup →
      collectLoop fuel l f b =
        ((b || l.any (fun e => e.refCount == 0)),
         l.filter (fun e => !(e.refCount == 0)),
         f ++ (l.filter (fun e => e.refCount == 0 && !(e.memPtr == 0))).map
            PtrDetails.memPtr) := by
  intro fuel
  induction fuel with
  | zero =>
      intro l f b hl hnd
      have hnil : l = [] := List.length_eq_zero.mp (Nat.le_zero.mp hl)
      subst hnil
      simp [collectLoop]
  | succ fuel ih =>
      intro l f b hl hnd
      cases hfind : l.find? (fun e => e.refCount == 0) with
      | none =>
          have hall : ∀ x ∈ l, ¬ (x.refCount == 0) = true :=
            List.find?_eq_none.mp hfind
          have hany : l.any (fun e => e.refCount == 0) = false :=
            List.any_eq_false.mpr hall
          have hfilter : l.filter (fun e => !(e.refCount == 0)) = l :=
            List.filter_eq_self.mpr (by intro x hx; simpa using hall x hx)
          have hzero :
              l.filter (fun e => e.refCount == 0 && !(e.memPtr == 0)) = [] := by
            rw [List.filter_eq_nil_iff]
            intro x hx hcon
            exact hall x hx ((Bool.and_eq_true _ _).mp hcon).1
          rw [collectLoop_of_find_none hfind]
          simp [hany, hfilter, hzero]
      | some e =>
          obtain ⟨l1, l2, rfl, hl1⟩ := find?_split hfind
          have hpe0 := List.find?_some hfind
          simp only [beq_iff_eq] at hpe0
          have hpe : (e.refCount == 0) = true := by simp [hpe0]
          have hnd' := hnd
          rw [List.map_append, List.map_cons, List.nodup_append] at hnd'
          obtain ⟨hnd1, hnd2, hdisj⟩ := hnd'
          have hel2 : e.memPtr ∉ l2.map PtrDetails.memPtr :=
            (List.nodup_cons.mp hnd2).1
          have hel1 : e.memPtr ∉ l1.map PtrDetails.memPtr := by
            intro hmem
            exact hdisj hmem (List.mem_cons_self e.memPtr _)
          have hx1 : ∀ x ∈ l1, (!(x.memPtr == e.memPtr)) = true := by
            intro x hx
            have hm : x.memPtr ∈ l1.map PtrDetails.memPtr :=
              List.mem_map_of_mem _ hx
            simp only [Bool.not_eq_true', beq_eq_false_iff_ne, ne_eq]
            intro hcontra
            exact hel1 (hcontra ▸ hm)
          have hx2 : ∀ x ∈ l2, (!(x.memPtr == e.memPtr)) = true := by
            intro x hx
            have hm : x.memPtr ∈ l2.map PtrDetails.memPtr :=
              List.mem_map_of_mem _ hx
            simp only [Bool.not_eq_true', beq_eq_false_iff_ne, ne_eq]
            intro hcontra
            exact hel2 (hcontra ▸ hm)
          have hrem : removeEq (l1 ++ e :: l2) e = l1 ++ l2 := by
            unfold removeEq
            rw [List.filter_append, List.filter_cons, if_neg (by simp),
              List.filter_eq_self.mpr hx1, List.filter_eq_self.mpr hx2]
          have hlen : (l1 ++ l2).length ≤ fuel := by
            rw [List.length_append] at hl ⊢
            rw [List.length_cons] at hl
            omega
          have hnd12 : ((l1 ++ l2).map PtrDetails.memPtr).Nodup := by
            have hsub : (l1 ++ l2).Sublist (l1 ++ e :: l2) :=
              List.Sublist.append_left (List.sublist_cons_self e l2) l1
            exact List.Nodup.sublist (List.Sublist.map _ hsub) hnd
          have hstep : collectLoop (fuel + 1) (l1 ++ e :: l2) f b
              = collectLoop fuel (l1 ++ l2)
                  (if e.memPtr == 0 then f else f ++ [e.memPtr]) true := by
            simp only [collectLoop, hfind, hrem]
          rw [hstep, ih _ _ _ hlen hnd12]
          have hany : (l1 ++ e :: l2).any (fun x => x.refCount == 0) = true :=
            List.any_eq_true.mpr ⟨e, by simp, hpe⟩
          have hfl1 : l1.filter (fun x => !(x.refCount == 0)) = l1 :=
            List.filter_eq_self.mpr (by intro x hx; simpa using hl1 x hx)
          have hzl1 :
              l1.filter (fun x => x.refCount == 0 && !(x.memPtr == 0)) = [] := by
            rw [List.filter_eq_nil_iff]
            intro x hx hcon
            exact hl1 x hx ((Bool.and_eq_true _ _).mp hcon).1
          by_cases hme : e.memPtr = 0
          · simp [hany, hfl1, hzl1, List.filter_append, List.filter_cons, hpe,
              hme, List.map_append]
          · simp [hany, hfl1, hzl1, List.filter_append, List.filter_cons, hpe,
              hme, List.map_append, List.append_assoc]

theorem collectLoop_all_zero :
    ∀ (fuel : Nat) (l : List PtrDetails) (f : List Nat) (b : Bool),
      l.length ≤ fuel → (∀ e ∈ l, e.refCount = 0) →
      (collectLoop fuel l f b).2.1 = [] := by
  intro fuel
  induction fuel with
  | zero =>
      intro l f b hl h0
      have hnil : l = [] := List.length_eq_zero.mp (Nat.le_zero.mp hl)
      subst hnil
      simp [collectLoop]
  | succ fuel ih =>
      intro l f b hl h0
      cases l with
      | nil => simp [collectLoop]
      | cons x rest =>
          have hx : (x.refCount == 0) = true := by
            simp [h0 x (List.mem_cons_self x rest)]
          have hfind : (x :: rest).find? (fun e => e.refCount == 0) = some x :=
            List.find?_cons_of_pos rest hx
          have hlt : (removeEq (x :: rest) x).length < (x :: rest).length :=
            removeEq_length_lt (List.mem_cons_self x rest)
          have hstep : collectLoop (fuel + 1) (x :: rest) f b
              = collectLoop fuel (removeEq (x :: rest) x)
                  (if x.memPtr == 0 then f else f ++ [x.memPtr]) true := by
            simp only [collectLoop, hfind]
          rw [hstep]
          apply ih
          · rw [List.length_cons] at hl
            rw [List.length_cons] at hlt
            omega
          · intro e he
            exact h0 e (List.mem_of_mem_filter he)

theorem collect_eq_of_nodup (s : GCState)
    (hnd : (s.refContainer.map PtrDetails.memPtr).Nodup) :
    collect s =
      (s.refContainer.any (fun e => e.refCount == 0),
       ⟨s.refContainer.filter (fun e => !(e.refCount == 0)),
        s.freed ++ (s.refContainer.filter
            (fun e => e.refCount == 0 && !(e.memPtr == 0))).map PtrDetails.memPtr,
        s.first⟩) := by
  unfold collect
  rw [collectLoop_eq_of_nodup s.refContainer.length s.refContainer s.freed false
      (Nat.le_refl _) hnd]
  simp

theorem collect_refContainer_all_zero (s : GCState)
    (h0 : ∀ e ∈ s.refContainer, e.refCount = 0) :
    ((collect s).2).refContainer = [] := by
  unfold collect
  exact collectLoop_all_zero s.refContainer.length s.refContainer s.freed false
    (Nat.le_refl _) h0

/-! ### Preservation of the bookkeeping invariants -/

theorem liveCount_mk (hs : List (Option Pointer)) (g : GCState) (a : Nat) :
    liveCount ⟨hs, g⟩ a = hs.countP (hitsAddr a) := rfl

theorem liveCount_le_length (w : World) (a : Nat) :
    liveCount w a ≤ w.handles.length :=
  List.countP_le_length (hitsAddr a)

theorem liveCount_pos_of_handle {w : World} {i : Nat} {p : Pointer}
    (hp : w.handles[i]? = some (some p)) : 0 < liveCount w p.addr := by
  refine List.countP_pos_iff.mpr ⟨some p, List.getElem?_mem hp, ?_⟩
  simp [hitsAddr]

theorem registered_of_live {w : World} {a : Nat} (hinv : InvCounts w)
    (hpos : 0 < liveCount w a) : registered w.gc a := by
  obtain ⟨oh, hmem, hhit⟩ := List.countP_pos_iff.mp hpos
  cases oh with
  | none => simp [hitsAddr] at hhit
  | some q =>
      have hqa : q.addr = a := by simpa [hitsAddr] using hhit
      exact hqa ▸ hinv.2.2 (some q) hmem q rfl

theorem invCounts_ctorRaw (size t : Nat) (w : World)
    (hfresh : ¬ registered w.gc t) (hinv : InvCounts w) :
    InvCounts ⟨w.handles ++ [some (ctorRaw size t w.gc).1],
      (ctorRaw size t w.gc).2⟩ := by
  obtain ⟨h1, h2, h3⟩ := hinv
  have hlive : ∀ a : Nat,
      List.countP (hitsAddr a) (w.handles ++ [some (ctorRaw size t w.gc).1])
        = liveCount w a + (if t = a then 1 else 0) := by
    intro a
    rw [countP_snoc]
    simp [hitsAddr, liveCount, ctorRaw]
  have hlive0 : liveCount w t = 0 := by
    by_contra hne
    exact hfresh (registered_of_live ⟨h1, h2, h3⟩ (Nat.pos_of_ne_zero hne))
  refine ⟨?_, ?_, ?_⟩
  · intro e he
    rw [liveCount_mk, hlive]
    have he2 : e ∈ w.gc.refContainer ++ [(⟨1, t, decide (size > 0), size⟩ : PtrDetails)] := he
    rcases List.mem_append.mp he2 with hmem | hmem
    · have hne : e.memPtr ≠ t := by
        intro hcontra
        exact hfresh (hcontra ▸ registered_of_mem hmem)
      rw [if_neg (fun hc => hne hc.symm)]
      simpa using h1 e hmem
    · have he3 : e = ⟨1, t, decide (size > 0), size⟩ := by simpa using hmem
      subst he3
      simp [hlive0]
  · show ((w.gc.refContainer ++ [(⟨1, t, decide (size > 0), size⟩ : PtrDetails)]).map
      PtrDetails.memPtr).Nodup
    rw [List.map_append, List.nodup_append]
    refine ⟨h2, by simp, ?_⟩
    intro a hmem hmem2
    have ha : a = t := by simpa using hmem2
    exact hfresh (ha ▸ hmem)
  · intro oh hmem q hq
    rcases List.mem_append.mp hmem with hmem2 | hmem2
    · have hreg := h3 oh hmem2 q hq
      show q.addr ∈ (w.gc.refContainer
        ++ [(⟨1, t, decide (size > 0), size⟩ : PtrDetails)]).map PtrDetails.memPtr
      rw [List.map_append]
      exact List.mem_append.mpr (Or.inl hreg)
    · have : oh = some (ctorRaw size t w.gc).1 := by simpa using hmem2
      rw [this] at hq
      have hqt : q.addr = t := by
        have := hq.symm
        injection this with h4
        rw [h4]
        rfl
      show q.addr ∈ (w.gc.refContainer
        ++ [(⟨1, t, decide (size > 0), size⟩ : PtrDetails)]).map PtrDetails.memPtr
      rw [List.map_append]
      refine List.mem_append.mpr (Or.inr ?_)
      simp [hqt]

theorem invCounts_ctorCopy (i : Nat) (w : World) (p : Pointer)
    (r : Pointer × GCState) (hp : w.handles[i]? = some (some p))
    (hc : ctorCopy p w.gc = some r) (hbound : w.handles.length + 1 < U32)
    (hinv : InvCounts w) : InvCounts ⟨w.handles ++ [some r.1], r.2⟩ := by
  obtain ⟨h1, h2, h3⟩ := hinv
  have hreg : registered w.gc p.addr := h3 (some p) (List.getElem?_mem hp) p rfl
  obtain ⟨e0, he0⟩ := findPtrInfo_of_registered hreg
  rw [ctorCopy, he0] at hc
  have hr1 : r.1 = ⟨p.addr, p.isArray, p.arraySize⟩ := by
    cases hc
    rfl
  have hr2 : r.2 = ⟨updateFirst w.gc.refContainer p.addr incRC, w.gc.freed,
      w.gc.first⟩ := by
    cases hc
    rfl
  rw [hr1, hr2]
  clear hc
  have hmap : (updateFirst w.gc.refContainer p.addr incRC).map PtrDetails.memPtr
      = w.gc.refContainer.map PtrDetails.memPtr :=
    map_memPtr_updateFirst _ _ _ incRC_memPtr
  have hlive : ∀ a : Nat,
      List.countP (hitsAddr a)
          (w.handles ++ [some (⟨p.addr, p.isArray, p.arraySize⟩ : Pointer)])
        = liveCount w a + (if p.addr = a then 1 else 0) := by
    intro a
    rw [countP_snoc]
    simp [hitsAddr, liveCount]
  refine ⟨?_, ?_, ?_⟩
  · intro e he
    rw [liveCount_mk, hlive]
    rcases (mem_updateFirst_iff h2 e).mp he with ⟨hmem, hne⟩ | ⟨e1, hmem, hea, rfl⟩
    · rw [if_neg (fun hc => hne hc.symm)]
      simpa using h1 e hmem
    · rw [incRC_memPtr, hea, if_pos rfl, incRC_refCount]
      have hcount : e1.refCount = liveCount w p.addr := hea ▸ h1 e1 hmem
      have hle : liveCount w p.addr ≤ w.handles.length := liveCount_le_length w _
      rw [hcount, Nat.mod_eq_of_lt (by omega)]
  · show ((updateFirst w.gc.refContainer p.addr incRC).map PtrDetails.memPtr).Nodup
    rw [hmap]
    exact h2
  · intro oh hmem q hq
    show q.addr ∈ (updateFirst w.gc.refContainer p.addr incRC).map PtrDetails.memPtr
    rw [hmap]
    rcases List.mem_append.mp hmem with hmem2 | hmem2
    · exact h3 oh hmem2 q hq
    · have hoq : oh = some (⟨p.addr, p.isArray, p.arraySize⟩ : Pointer) := by
        simpa using hmem2
      rw [hoq] at hq
      injection hq.symm with h4
      rw [h4]
      exact hreg

theorem invCounts_dec (i : Nat) (w : World) (p : Pointer) (s1 : GCState)
    (hp : w.handles[i]? = some (some p)) (hd : dtorDecRef p w.gc = some s1)
    (hinv : InvCounts w) : InvCounts ⟨w.handles.set i none, s1⟩ := by
  obtain ⟨h1, h2, h3⟩ := hinv
  have hreg : registered w.gc p.addr := h3 (some p) (List.getElem?_mem hp) p rfl
  obtain ⟨e0, he0⟩ := findPtrInfo_of_registered hreg
  rw [dtorDecRef, he0] at hd
  have hs1 : s1 = ⟨updateFirst w.gc.refContainer p.addr decRCGuard, w.gc.freed,
      w.gc.first⟩ := by
    cases hd
    rfl
  subst hs1
  clear hd
  have hmap : (updateFirst w.gc.refContainer p.addr decRCGuard).map
      PtrDetails.memPtr = w.gc.refContainer.map PtrDetails.memPtr :=
    map_memPtr_updateFirst _ _ _ decRCGuard_memPtr
  have hcount : ∀ a : Nat,
      List.countP (hitsAddr a) (w.handles.set i none) + (if p.addr = a then 1 else 0)
        = List.countP (hitsAddr a) w.handles := by
    intro a
    have hset := countP_set_none (hitsAddr a) w.handles i (some p) hp
    simpa [hitsAddr] using hset
  refine ⟨?_, ?_, ?_⟩
  · intro e he
    rw [liveCount_mk]
    rcases (mem_updateFirst_iff h2 e).mp he with ⟨hmem, hne⟩ | ⟨e1, hmem, hea, rfl⟩
    · have hold := h1 e hmem
      have hc := hcount e.memPtr
      rw [if_neg (fun hc2 => hne hc2.symm), Nat.add_zero] at hc
      rw [hc]
      exact hold
    · have hrc : e1.refCount = liveCount w p.addr := hea ▸ h1 e1 hmem
      have hpos : 0 < liveCount w p.addr := liveCount_pos_of_handle hp
      rw [decRCGuard_memPtr, hea, decRCGuard_refCount,
        if_neg (by omega : ¬ e1.refCount = 0)]
      have hc := hcount p.addr
      rw [if_pos rfl] at hc
      have hl : liveCount w p.addr = List.countP (hitsAddr p.addr) w.handles := rfl
      omega
  · show ((updateFirst w.gc.refContainer p.addr decRCGuard).map
      PtrDetails.memPtr).Nodup
    rw [hmap]
    exact h2
  · intro oh hmem q hq
    show q.addr ∈ (updateFirst w.gc.refContainer p.addr decRCGuard).map
      PtrDetails.memPtr
    rw [hmap]
    rcases List.mem_or_eq_of_mem_set hmem with hmem2 | hoh
    · exact h3 oh hmem2 q hq
    · rw [hoh] at hq
      simp at hq

theorem invCounts_collectW (w : World) (hinv : InvCounts w) :
    InvCounts ⟨w.handles, (collect w.gc).2⟩ := by
  obtain ⟨h1, h2, h3⟩ := hinv
  have hc := collect_eq_of_nodup w.gc h2
  rw [hc]
  refine ⟨?_, ?_, ?_⟩
  · intro e he
    have hmem := (List.mem_filter.mp he).1
    rw [liveCount_mk]
    exact h1 e hmem
  · exact List.Nodup.sublist (List.Sublist.map _ (List.filter_sublist _)) h2
  · intro oh hmem q hq
    have hreg := h3 oh hmem q hq
    obtain ⟨e2, he2, he2a⟩ := List.mem_map.mp hreg
    have hpos : 0 < liveCount w q.addr := by
      refine List.countP_pos_iff.mpr ⟨oh, hmem, ?_⟩
      rw [hq]
      simp [hitsAddr]
    have hrc : ¬ e2.refCount = 0 := by
      have hcnt := h1 e2 he2
      rw [he2a] at hcnt
      omega
    exact List.mem_map.mpr ⟨e2, List.mem_filter.mpr ⟨he2, by simp [hrc]⟩, he2a⟩

theorem freedOk_ctorRaw (size t : Nat) (w : World) (hnfr : t ∉ w.gc.freed)
    (hfr : FreedOk w) :
    FreedOk ⟨w.handles ++ [some (ctorRaw size t w.gc).1],
      (ctorRaw size t w.gc).2⟩ := by
  obtain ⟨hnd, hprop⟩ := hfr
  refine ⟨hnd, ?_⟩
  intro a ha
  obtain ⟨hl0, hnr⟩ := hprop a ha
  have hne : t ≠ a := fun hc => hnfr (hc ▸ ha)
  constructor
  · rw [liveCount_mk, countP_snoc]
    have hz : (if hitsAddr a (some (ctorRaw size t w.gc).1) = true then 1 else 0)
        = 0 := by
      simp [hitsAddr, ctorRaw, hne]
    rw [hz]
    exact hl0
  · intro hregnew
    have hmem : a ∈ w.gc.refContainer.map PtrDetails.memPtr
        ++ [(⟨1, t, decide (size > 0), size⟩ : PtrDetails)].map PtrDetails.memPtr := by
      rw [← List.map_append]
      exact hregnew
    rcases List.mem_append.mp hmem with hmem2 | hmem2
    · exact hnr hmem2
    · have : a = t := by simpa using hmem2
      exact hne this.symm

theorem freedOk_ctorCopy (i : Nat) (w : World) (p : Pointer)
    (r : Pointer × GCState) (hp : w.handles[i]? = some (some p))
    (hc : ctorCopy p w.gc = some r) (hfr : FreedOk w) :
    FreedOk ⟨w.handles ++ [some r.1], r.2⟩ := by
  obtain ⟨hnd, hprop⟩ := hfr
  obtain ⟨e0, he0⟩ : ∃ e0, findPtrInfo w.gc.refContainer p.addr = some e0 := by
    cases hfp : findPtrInfo w.gc.refContainer p.addr with
    | none => rw [ctorCopy, hfp] at hc; cases hc
    | some e0 => exact ⟨e0, rfl⟩
  rw [ctorCopy, he0] at hc
  have hr1 : r.1 = ⟨p.addr, p.isArray, p.arraySize⟩ := by
    cases hc
    rfl
  have hr2 : r.2 = ⟨updateFirst w.gc.refContainer p.addr incRC, w.gc.freed,
      w.gc.first⟩ := by
    cases hc
    rfl
  rw [hr1, hr2]
  have hmap : (updateFirst w.gc.refContainer p.addr incRC).map PtrDetails.memPtr
      = w.gc.refContainer.map PtrDetails.memPtr :=
    map_memPtr_updateFirst _ _ _ incRC_memPtr
  refine ⟨hnd, ?_⟩
  intro a ha
  obtain ⟨hl0, hnr⟩ := hprop a ha
  have hpa : p.addr ≠ a := by
    intro hcontra
    have hpos : 0 < liveCount w p.addr := liveCount_pos_of_handle hp
    rw [hcontra] at hpos
    omega
  constructor
  · rw [liveCount_mk, countP_snoc]
    have hz : (if hitsAddr a (some (⟨p.addr, p.isArray, p.arraySize⟩ : Pointer))
        = true then 1 else 0) = 0 := by
      simp [hitsAddr, hpa]
    rw [hz]
    exact hl0
  · intro hregnew
    apply hnr
    show a ∈ w.gc.refContainer.map PtrDetails.memPtr
    rw [← hmap]
    exact hregnew

theorem freedOk_dec (i : Nat) (w : World) (p : Pointer) (s1 : GCState)
    (hp : w.handles[i]? = some (some p)) (hd : dtorDecRef p w.gc = some s1)
    (hfr : FreedOk w) : FreedOk ⟨w.handles.set i none, s1⟩ := by
  obtain ⟨hnd, hprop⟩ := hfr
  obtain ⟨e0, he0⟩ : ∃ e0, findPtrInfo w.gc.refContainer p.addr = some e0 := by
    cases hfp : findPtrInfo w.gc.refContainer p.addr with
    | none => rw [dtorDecRef, hfp] at hd; cases hd
    | some e0 => exact ⟨e0, rfl⟩
  rw [dtorDecRef, he0] at hd
  have hs1 : s1 = ⟨updateFirst w.gc.refContainer p.addr decRCGuard, w.gc.freed,
      w.gc.first⟩ := by
    cases hd
    rfl
  subst hs1
  have hmap : (updateFirst w.gc.refContainer p.addr decRCGuard).map
      PtrDetails.memPtr = w.gc.refContainer.map PtrDetails.memPtr :=
    map_memPtr_updateFirst _ _ _ decRCGuard_memPtr
  refine ⟨hnd, ?_⟩
  intro a ha
  obtain ⟨hl0, hnr⟩ := hprop a ha
  constructor
  · rw [liveCount_mk]
    have hset := countP_set_none (hitsAddr a) w.handles i (some p) hp
    simp [hitsAddr] at hset
    have hl : liveCount w a = List.countP (hitsAddr a) w.handles := rfl
    omega
  · intro hregnew
    apply hnr
    show a ∈ w.gc.refContainer.map PtrDetails.memPtr
    rw [← hmap]
    exact hregnew

theorem freedOk_collectW (w : World) (hinv : InvCounts w) (hfr : FreedOk w) :
    FreedOk ⟨w.handles, (collect w.gc).2⟩ := by
  obtain ⟨h1, h2, h3⟩ := hinv
  obtain ⟨hnd, hprop⟩ := hfr
  have hc := collect_eq_of_nodup w.gc h2
  rw [hc]
  constructor
  · show (w.gc.freed ++ (w.gc.refContainer.filter
        (fun e => e.refCount == 0 && !(e.memPtr == 0))).map PtrDetails.memPtr).Nodup
    rw [List.nodup_append]
    refine ⟨hnd, ?_, ?_⟩
    · exact List.Nodup.sublist (List.Sublist.map _ (List.filter_sublist _)) h2
    · intro a ha hamem
      obtain ⟨e2, he2, he2a⟩ := List.mem_map.mp hamem
      have hmem2 := (List.mem_filter.mp he2).1
      exact (hprop a ha).2 (he2a ▸ registered_of_mem hmem2)
  · intro a ha
    rcases List.mem_append.mp ha with hold | hnew
    · obtain ⟨hl0, hnr⟩ := hprop a hold
      refine ⟨by rw [liveCount_mk]; exact hl0, ?_⟩
      intro hregnew
      obtain ⟨e2, he2, he2a⟩ := List.mem_map.mp hregnew
      exact hnr (he2a ▸ registered_of_mem (List.mem_filter.mp he2).1)
    · obtain ⟨e2, he2, he2a⟩ := List.mem_map.mp hnew
      obtain ⟨hmem2, hpe⟩ := List.mem_filter.mp he2
      have hrc0 : e2.refCount = 0 := by
        simpa using ((Bool.and_eq_true _ _).mp hpe).1
      have hl0 : liveCount w a = 0 := by
        have hcnt := h1 e2 hmem2
        rw [he2a] at hcnt
        omega
      refine ⟨by rw [liveCount_mk]; exact hl0, ?_⟩
      intro hregnew
      obtain ⟨e3, he3, he3a⟩ := List.mem_map.mp hregnew
      obtain ⟨hmem3, hpe3⟩ := List.mem_filter.mp he3
      have he23 : e2 = e3 :=
        List.inj_on_of_nodup_map h2 hmem2 hmem3 (by rw [he2a, he3a])
      rw [← he23] at hpe3
      simp [hrc0] at hpe3

theorem ok5_imp_ok1 (w : World) (op : Op) (hok : Ok5 w op) : Ok1 w op := by
  cases op with
  | ctorRaw t => exact ⟨hok.1.1, hok.2⟩
  | ctorCopy i => exact ⟨trivial, hok.2⟩
  | destroy i => exact ⟨trivial, hok.2⟩
  | collectReq => exact ⟨trivial, hok.2⟩

theorem step_inv (size : Nat) (w w1 : World) (op : Op) (hok : Ok1 w op)
    (hs : step size w op = some w1) (hinv : InvCounts w) : InvCounts w1 := by
  cases op with
  | ctorRaw t =>
      simp only [step] at hs
      cases hs
      exact invCounts_ctorRaw size t w hok.1 hinv
  | ctorCopy i =>
      cases hhp : w.handles[i]? with
      | none => simp [step, hhp] at hs
      | some oh =>
          cases oh with
          | none => simp [step, hhp] at hs
          | some p =>
              simp only [step, hhp] at hs
              cases hcc : ctorCopy p w.gc with
              | none => simp [hcc] at hs
              | some r =>
                  simp only [hcc] at hs
                  cases hs
                  exact invCounts_ctorCopy i w p r hhp hcc hok.2 hinv
  | destroy i =>
      cases hhp : w.handles[i]? with
      | none => simp [step, hhp] at hs
      | some oh =>
          cases oh with
          | none => simp [step, hhp] at hs
          | some p =>
              simp only [step, hhp] at hs
              cases hdd : dtorDecRef p w.gc with
              | none => simp [dtor, hdd] at hs
              | some s1 =>
                  simp only [dtor, hdd] at hs
                  cases hs
                  exact invCounts_collectW ⟨w.handles.set i none, s1⟩
                    (invCounts_dec i w p s1 hhp hdd hinv)
  | collectReq =>
      simp only [step] at hs
      cases hs
      exact invCounts_collectW w hinv

theorem step_inv5 (size : Nat) (w w1 : World) (op : Op) (hok : Ok5 w op)
    (hs : step size w op = some w1) (hinv : InvCounts w) (hfr : FreedOk w) :
    InvCounts w1 ∧ FreedOk w1 := by
  refine ⟨step_inv size w w1 op (ok5_imp_ok1 w op hok) hs hinv, ?_⟩
  cases op with
  | ctorRaw t =>
      simp only [step] at hs
      cases hs
      exact freedOk_ctorRaw size t w hok.1.2 hfr
  | ctorCopy i =>
      cases hhp : w.handles[i]? with
      | none => simp [step, hhp] at hs
      | some oh =>
          cases oh with
          | none => simp [step, hhp] at hs
          | some p =>
              simp only [step, hhp] at hs
              cases hcc : ctorCopy p w.gc with
              | none => simp [hcc] at hs
              | some r =>
                  simp only [hcc] at hs
                  cases hs
                  exact freedOk_ctorCopy i w p r hhp hcc hfr
  | destroy i =>
      cases hhp : w.handles[i]? with
      | none => simp [step, hhp] at hs
      | some oh =>
          cases oh with
          | none => simp [step, hhp] at hs
          | some p =>
              simp only [step, hhp] at hs
              cases hdd : dtorDecRef p w.gc with
              | none => simp [dtor, hdd] at hs
              | some s1 =>
                  simp only [dtor, hdd] at hs
                  cases hs
                  exact freedOk_collectW ⟨w.handles.set i none, s1⟩
                    (invCounts_dec i w p s1 hhp hdd hinv)
                    (freedOk_dec i w p s1 hhp hdd hfr)
  | collectReq =>
      simp only [step] at hs
      cases hs
      exact freedOk_collectW w hinv hfr

theorem invCounts_init : InvCounts initWorld := by
  refine ⟨?_, ?_, ?_⟩
  · intro e he
    simp [initWorld, initState] at he
  · simp [initWorld, initState]
  · intro oh hmem q hq
    simp [initWorld, initState] at hmem

theorem freedOk_init : FreedOk initWorld := by
  refine ⟨by simp [initWorld, initState], ?_⟩
  intro a ha
  simp [initWorld, initState] at ha

theorem reaches_invCounts (size : Nat) (w w2 : World)
    (h : Reaches Ok1 size w w2) (hinv : InvCounts w) : InvCounts w2 := by
  induction h with
  | done w => exact hinv
  | more op hP hs ht ih => exact ih (step_inv _ _ _ _ hP hs hinv)

theorem reaches_inv5 (size : Nat) (w w2 : World)
    (h : Reaches Ok5 size w w2) (hinv : InvCounts w) (hfr : FreedOk w) :
    InvCounts w2 ∧ FreedOk w2 := by
  induction h with
  | done w => exact ⟨hinv, hfr⟩
  | more op hP hs ht ih =>
      obtain ⟨hinv1, hfr1⟩ := step_inv5 _ _ _ _ hP hs hinv hfr
      exact ih hinv1 hfr1

/-! ### Claim C1 -/

/-- C1 (amended): along every sequence of raw constructions, copy
constructions, destructions and collections started from the empty world,
in which each raw construction uses an address with no current registry
entry (and fewer than 2^32 - 1 handle slots exist, so the `unsigned`
counts cannot wrap), the `refCount` stored in each registry entry equals
the number of currently live handles whose `addr` equals that entry's
address, and an address with no entry has no live handles. -/
theorem c1_refCount_matches_live_handles (size : Nat) (w : World)
    (h : Reaches Ok1 size initWorld w) : C1Prop w := by
  have hinv := reaches_invCounts size initWorld w h invCounts_init
  refine ⟨hinv.1, ?_⟩
  intro a ha
  by_contra hne
  exact ha (registered_of_live hinv (Nat.pos_of_ne_zero hne))

theorem c1_refCount_matches_live_handles_witness : C1Prop c1W :=
  c1_refCount_matches_live_handles 0 c1W
    (Reaches.more (Op.ctorRaw 5) (by decide) rfl
      (Reaches.more (Op.ctorCopy 0) (by decide) rfl (Reaches.done _)))

/-- C1 counterexample: constructing two handles from the same raw address 5
(`Pointer<int> a(p); Pointer<int> b(p);`) leaves two registry entries for
address 5, each with `refCount` 1, while 2 handles are live — the count
stored in the entry for address 5 does not equal the number of live
handles at 5. -/
theorem c1_counterexample :
    ¬ C1Prop c1cexW
      ∧ c1cexW.gc.refContainer.map PtrDetails.refCount = [1, 1]
      ∧ c1cexW.gc.refContainer.map PtrDetails.memPtr = [5, 5]
      ∧ liveCount c1cexW 5 = 2 := by
  refine ⟨?_, rfl, rfl, rfl⟩
  intro hc
  have h5 := hc.1 ⟨1, 5, false, 0⟩ (by decide)
  exact absurd h5 (by decide)

/-! ### Claim C2 -/

/-- C2 (amended): along fresh-construction traces the registry holds at
most one entry per distinct address (its address list is duplicate-free),
and assigning an already-registered raw address to a handle increments the
existing entry in place, adding no entry; the raw-address constructor
itself, by contrast, appends unconditionally (see the counterexample). -/
theorem c2_at_most_one_entry_per_address :
    (∀ size : Nat, ∀ w : World, Reaches Ok1 size initWorld w →
      (w.gc.refContainer.map PtrDetails.memPtr).Nodup) ∧
    (∀ size junk : Nat, ∀ hptr : Pointer, ∀ t : Nat, ∀ s : GCState,
      ∀ r : Pointer × Nat × GCState, registered s t →
      assignRaw size junk hptr t s = some r →
      r.2.2.refContainer.map PtrDetails.memPtr
        = s.refContainer.map PtrDetails.memPtr) := by
  constructor
  · intro size w h
    exact (reaches_invCounts size initWorld w h invCounts_init).2.1
  · intro size junk hptr t s r hreg has
    obtain ⟨e0, he0⟩ : ∃ e0, findPtrInfo s.refContainer hptr.addr = some e0 := by
      cases hfp : findPtrInfo s.refContainer hptr.addr with
      | none => simp only [assignRaw, hfp] at has; cases has
      | some e0 => exact ⟨e0, rfl⟩
    simp only [assignRaw, he0] at has
    have hmap1 : (updateFirst s.refContainer hptr.addr decRCWrap).map
        PtrDetails.memPtr = s.refContainer.map PtrDetails.memPtr :=
      map_memPtr_updateFirst _ _ _ decRCWrap_memPtr
    have hmem1 : t ∈ (updateFirst s.refContainer hptr.addr decRCWrap).map
        PtrDetails.memPtr := by
      rw [hmap1]
      exact hreg
    obtain ⟨e1, he1⟩ := findPtrInfo_of_mem_map hmem1
    simp only [he1] at has
    cases has
    show (updateFirst (updateFirst s.refContainer hptr.addr decRCWrap) t
      incRC).map PtrDetails.memPtr = s.refContainer.map PtrDetails.memPtr
    rw [map_memPtr_updateFirst _ _ _ incRC_memPtr, hmap1]

theorem c2_at_most_one_entry_per_address_witness :
    (c2W.gc.refContainer.map PtrDetails.memPtr).Nodup
      ∧ c2s1.refContainer.map PtrDetails.memPtr
          = c2s0.refContainer.map PtrDetails.memPtr :=
  ⟨c2_at_most_one_entry_per_address.1 0 c2W
      (Reaches.more (Op.ctorRaw 3) (by decide) rfl
        (Reaches.more (Op.ctorCopy 0) (by decide) rfl
          (Reaches.more (Op.ctorRaw 8) (by decide) rfl (Reaches.done _)))),
   c2_at_most_one_entry_per_address.2 0 0 (⟨3, false, 0⟩ : Pointer) 7 c2s0 _
      (by decide) rfl⟩

/-- C2 counterexample: constructing a second handle from an address (9)
that already has a registry entry produces a second entry for 9, so the
registry address list is not duplicate-free. -/
theorem c2_counterexample :
    c2cexW.gc.refContainer.map PtrDetails.memPtr = [9, 9]
      ∧ ¬ (c2cexW.gc.refContainer.map PtrDetails.memPtr).Nodup :=
  ⟨rfl, by decide⟩

/-! ### Claim C5 -/

/-- C5 (amended): provided every raw construction uses a fresh address
(neither currently registered nor previously freed), no address is ever
deallocated twice, and a deallocated address has no live handle and no
remaining registry entry — deallocation only happens to entries whose
count reached zero, inside `collect()`.  Moreover the destructor's own
decrement phase frees nothing (its only deallocation path is the final
`collect()` call), and the raw and copy constructors free nothing. -/
theorem c5_dealloc_at_most_once_only_via_collect :
    (∀ size : Nat, ∀ w : World, Reaches Ok5 size initWorld w → FreedOk w) ∧
    (∀ hptr : Pointer, ∀ s s1 : GCState, dtorDecRef hptr s = some s1 →
      s1.freed = s.freed ∧ dtor hptr s = some (collect s1).2) ∧
    (∀ size t : Nat, ∀ s : GCState, ((ctorRaw size t s).2).freed = s.freed) ∧
    (∀ p : Pointer, ∀ s : GCState, ∀ r : Pointer × GCState,
      ctorCopy p s = some r → r.2.freed = s.freed) := by
  refine ⟨?_, ?_, ?_, ?_⟩
  · intro size w h
    exact (reaches_inv5 size initWorld w h invCounts_init freedOk_init).2
  · intro hptr s s1 hd
    refine ⟨?_, by simp only [dtor, hd]⟩
    obtain ⟨e0, he0⟩ : ∃ e0, findPtrInfo s.refContainer hptr.addr = some e0 := by
      cases hfp : findPtrInfo s.refContainer hptr.addr with
      | none => simp only [dtorDecRef, hfp] at hd; cases hd
      | some e0 => exact ⟨e0, rfl⟩
    simp only [dtorDecRef, he0] at hd
    cases hd
    rfl
  · intro size t s
    rfl
  · intro p s r hc
    obtain ⟨e0, he0⟩ : ∃ e0, findPtrInfo s.refContainer p.addr = some e0 := by
      cases hfp : findPtrInfo s.refContainer p.addr with
      | none => rw [ctorCopy, hfp] at hc; cases hc
      | some e0 => exact ⟨e0, rfl⟩
    rw [ctorCopy, he0] at hc
    cases hc
    rfl

theorem c5_dealloc_at_most_once_only_via_collect_witness :
    FreedOk c5W
      ∧ (c5s1.freed = c5s0.freed
          ∧ dtor (⟨5, false, 0⟩ : Pointer) c5s0 = some (collect c5s1).2)
      ∧ ((ctorRaw 0 11 c5s0).2).freed = c5s0.freed
      ∧ c5copyR.2.freed = c5s0.freed :=
  ⟨c5_dealloc_at_most_once_only_via_collect.1 0 c5W
      (Reaches.more (Op.ctorRaw 4) (by decide) rfl
        (Reaches.more (Op.ctorCopy 0) (by decide) rfl
          (Reaches.more (Op.destroy 1) (by decide) rfl
            (Reaches.more (Op.destroy 0) (by decide) rfl (Reaches.done _))))),
   c5_dealloc_at_most_once_only_via_collect.2.1 (⟨5, false, 0⟩ : Pointer)
     c5s0 _ rfl,
   c5_dealloc_at_most_once_only_via_collect.2.2.1 0 11 c5s0,
   c5_dealloc_at_most_once_only_via_collect.2.2.2 (⟨5, false, 0⟩ : Pointer)
     c5s0 _ rfl⟩

/-- C5 counterexample: when a raw address (7) already freed by an earlier
destruction is reused by a second raw construction and that handle is
destroyed, the address is passed to delete a second time: the freed log
after the four operations is [7, 7]. -/
theorem c5_counterexample :
    runOps 0 initWorld [Op.ctorRaw 7, Op.destroy 0, Op.ctorRaw 7, Op.destroy 1]
        = some c5cexW
      ∧ c5cexW.gc.freed = [7, 7] ∧ ¬ c5cexW.gc.freed.Nodup :=
  ⟨rfl, rfl, by decide⟩

/-! ### Claim C6 -/

/-- C6: `shutdown()` sets every entry's reference count to zero and then
collects; for every prior registry state, the registry is empty afterwards
(`refContainerSize() = 0`). -/
theorem c6_shutdown_empties_registry (s : GCState) :
    (shutdown s).refContainer = [] ∧ refContainerSize (shutdown s) = 0 := by
  have hmain : (shutdown s).refContainer = [] := by
    unfold shutdown
    by_cases h : (refContainerSize s == 0) = true
    · rw [if_pos h]
      have hlen : s.refContainer.length = 0 := by
        simpa [refContainerSize] using h
      exact List.length_eq_zero.mp hlen
    · rw [if_neg h]
      apply collect_refContainer_all_zero
      intro e he
      obtain ⟨e1, he1, rfl⟩ := List.mem_map.mp he
      rfl
  refine ⟨hmain, ?_⟩
  show (shutdown s).refContainer.length = 0
  rw [hmain]
  rfl

/-! ### Claim C7 -/

/-- C7: neither reassignment path collects: both assignment operators
leave the freed log unchanged and keep every registered address
registered, so an old target whose count just dropped to zero keeps its
registry entry and its allocation until the next destruction or explicit
`collect()` call. -/
theorem c7_reassignment_never_collects :
    (∀ size junk : Nat, ∀ hptr : Pointer, ∀ t : Nat, ∀ s : GCState,
      ∀ r : Pointer × Nat × GCState, assignRaw size junk hptr t s = some r →
      RegPreserved s r.2.2) ∧
    (∀ hptr rv : Pointer, ∀ s : GCState, ∀ r : Pointer × Pointer × GCState,
      assignPtr hptr rv s = some r → RegPreserved s r.2.2) := by
  constructor
  · intro size junk hptr t s r has
    obtain ⟨e0, he0⟩ : ∃ e0, findPtrInfo s.refContainer hptr.addr = some e0 := by
      cases hfp : findPtrInfo s.refContainer hptr.addr with
      | none => simp only [assignRaw, hfp] at has; cases has
      | some e0 => exact ⟨e0, rfl⟩
    simp only [assignRaw, he0] at has
    have hmap1 : (updateFirst s.refContainer hptr.addr decRCWrap).map
        PtrDetails.memPtr = s.refContainer.map PtrDetails.memPtr :=
      map_memPtr_updateFirst _ _ _ decRCWrap_memPtr
    cases hft : findPtrInfo (updateFirst s.refContainer hptr.addr decRCWrap) t with
    | some e1 =>
        simp only [hft] at has
        cases has
        refine ⟨rfl, ?_⟩
        intro a hreg
        show a ∈ (updateFirst (updateFirst s.refContainer hptr.addr decRCWrap)
          t incRC).map PtrDetails.memPtr
        rw [map_memPtr_updateFirst _ _ _ incRC_memPtr, hmap1]
        exact hreg
    | none =>
        simp only [hft] at has
        cases has
        refine ⟨rfl, ?_⟩
        intro a hreg
        show a ∈ ((updateFirst s.refContainer hptr.addr decRCWrap)
          ++ [PtrDetails.ctor junk t size]).map PtrDetails.memPtr
        rw [List.map_append]
        refine List.mem_append.mpr (Or.inl ?_)
        rw [hmap1]
        exact hreg
  · intro hptr rv s r has
    obtain ⟨e0, he0⟩ : ∃ e0, findPtrInfo s.refContainer hptr.addr = some e0 := by
      cases hfp : findPtrInfo s.refContainer hptr.addr with
      | none => simp only [assignPtr, hfp] at has; cases has
      | some e0 => exact ⟨e0, rfl⟩
    simp only [assignPtr, he0] at has
    have hmap1 : (updateFirst s.refContainer hptr.addr decRCWrap).map
        PtrDetails.memPtr = s.refContainer.map PtrDetails.memPtr :=
      map_memPtr_updateFirst _ _ _ decRCWrap_memPtr
    cases hft : findPtrInfo (updateFirst s.refContainer hptr.addr decRCWrap)
        rv.addr with
    | none => simp only [hft] at has; cases has
    | some e1 =>
        simp only [hft] at has
        cases has
        refine ⟨rfl, ?_⟩
        intro a hreg
        show a ∈ (updateFirst (updateFirst s.refContainer hptr.addr decRCWrap)
          rv.addr incRC).map PtrDetails.memPtr
        rw [map_memPtr_updateFirst _ _ _ incRC_memPtr, hmap1]
        exact hreg

theorem c7_reassignment_never_collects_witness :
    RegPreserved c7s0 c7r1.2.2 ∧ RegPreserved c7s0 c7r2.2.2 :=
  ⟨c7_reassignment_never_collects.1 0 0 (⟨3, false, 0⟩ : Pointer) 7 c7s0 _ rfl,
   c7_reassignment_never_collects.2 (⟨3, false, 0⟩ : Pointer)
     (⟨7, false, 0⟩ : Pointer) c7s0 _ rfl⟩

/-! ### Claim C8 -/

/-- C8: when no registry entry has reference count zero, `collect()`
returns false and leaves the state unchanged, and calling it again in the
resulting state again returns false and changes nothing — a false result
is the normal outcome of the total function, not a failure. -/
theorem c8_collect_idempotent_without_zero_entries (s : GCState)
    (h : ∀ e ∈ s.refContainer, e.refCount ≠ 0) :
    collect s = (false, s)
      ∧ collect (collect s).2 = (false, (collect s).2) := by
  obtain ⟨l, f, fl⟩ := s
  have hfind : l.find? (fun e => e.refCount == 0) = none := by
    refine List.find?_eq_none.mpr ?_
    intro x hx
    simpa using h x hx
  have h1 : collect ⟨l, f, fl⟩ = (false, ⟨l, f, fl⟩) := by
    unfold collect
    rw [collectLoop_of_find_none hfind]
  refine ⟨h1, ?_⟩
  rw [h1]
  exact h1

theorem c8_collect_idempotent_without_zero_entries_witness :
    collect c8s0 = (false, c8s0)
      ∧ collect (collect c8s0).2 = (false, (collect c8s0).2) :=
  c8_collect_idempotent_without_zero_entries c8s0 (by decide)

/-! ### Claim C9 -/

/-- C9: for a handle built by the raw constructor of `Pointer<T, N>` the
iterator range [begin(), end()) spans exactly N elements
(end().current - begin().current = N), and for a scalar handle (N = 0)
begin() equals end(): the sequence is empty. -/
theorem c9_iterator_range_spans_size (size t : Nat) (s : GCState) :
    ((ctorRaw size t s).1.endIter.current
        - (ctorRaw size t s).1.beginIter.current = size)
      ∧ (size = 0 →
          (ctorRaw size t s).1.beginIter = (ctorRaw size t s).1.endIter) := by
  constructor
  · by_cases hs0 : 0 < size
    · simp [ctorRaw, Pointer.beginIter, Pointer.endIter, hs0]
    · have hz : size = 0 := by omega
      subst hz
      simp [ctorRaw, Pointer.beginIter, Pointer.endIter]
  · intro hz
    subst hz
    simp [ctorRaw, Pointer.beginIter, Pointer.endIter]

theorem c9_iterator_range_spans_size_witness :
    ((ctorRaw 5 100 initState).1.endIter.current
        - (ctorRaw 5 100 initState).1.beginIter.current = 5)
      ∧ (ctorRaw 0 100 initState).1.beginIter
          = (ctorRaw 0 100 initState).1.endIter :=
  ⟨(c9_iterator_range_spans_size 5 100 initState).1,
   (c9_iterator_range_spans_size 0 100 initState).2 rfl⟩

/-! ### Claim C10 -/

/-- C10: `operator=(Pointer &rv)` ends in `return rv;` — the returned
reference is the right-hand (source) handle, not the assigned-to handle —
while the left-hand handle's `addr` field is updated to `rv.addr`. -/
theorem c10_handle_assignment_returns_rhs (hptr rv : Pointer) (s : GCState)
    (r : Pointer × Pointer × GCState) (has : assignPtr hptr rv s = some r) :
    r.2.1 = rv ∧ r.1.addr = rv.addr := by
  obtain ⟨e0, he0⟩ : ∃ e0, findPtrInfo s.refContainer hptr.addr = some e0 := by
    cases hfp : findPtrInfo s.refContainer hptr.addr with
    | none => simp only [assignPtr, hfp] at has; cases has
    | some e0 => exact ⟨e0, rfl⟩
  simp only [assignPtr, he0] at has
  cases hft : findPtrInfo (updateFirst s.refContainer hptr.addr decRCWrap)
      rv.addr with
  | none => simp only [hft] at has; cases has
  | some e1 =>
      simp only [hft] at has
      cases has
      exact ⟨rfl, rfl⟩

theorem c10_handle_assignment_returns_rhs_witness :
    c10r.2.1 = (⟨9, true, 3⟩ : Pointer) ∧ c10r.1.addr = 9 :=
  c10_handle_assignment_returns_rhs (⟨4, false, 0⟩ : Pointer)
    (⟨9, true, 3⟩ : Pointer) c10s0 _ rfl

/-! ### Claim C3 -/

/-- C3 (code bug): the default constructor's body is the statement
`Pointer(nullptr);`, which builds and immediately destroys a temporary
instead of initializing the object under construction — the resulting
handle keeps its indeterminate field values (here junk address 7, junk
flags true/3) rather than a null address; the temporary's registration is
added and collected away again. -/
theorem c3_default_ctor_leaves_fields_uninitialized :
    ctorDefault 0 7 true 3 initState
        = some ((⟨7, true, 3⟩ : Pointer), (⟨[], [], false⟩ : GCState))
      ∧ (7 : Nat) ≠ 0 :=
  ⟨rfl, by decide⟩

/-! ### Claim C4 -/

/-- C4 (code bug): assigning a fresh raw address (9) to a `Pointer<T, 5>`
handle inserts `PtrDetails<T>(9, 5)`, whose constructor sets
`isArray = (arrSize == 0)` — false although N = 5 > 0 — and increments the
uninitialized `refCount` member (junk value 3 giving 4) instead of storing
`isArray = true` and `refCount = 1`. -/
theorem c4_inserted_entry_has_wrong_fields :
    findPtrInfo c4s1.refContainer 9 = some (⟨4, 9, false, 5⟩ : PtrDetails)
      ∧ (4 : Nat) ≠ 1 ∧ (false : Bool) ≠ true :=
  ⟨rfl, by decide, by decide⟩

end SmartPtr
